import Mathlib

/-
Verification of the per-file extraction engine of the repository mapper
(bin/mapper.ts).  The mapper has one grammar-driven extractor for the
ECMAScript family, which walks a concrete syntax tree supplied by an
external grammar, and regular-expression driven extractors for Dart
(widget language), Java/Kotlin (platform language) and the Android
manifest.  We embed the extraction functions over an explicit tree type
and over character lists; the concrete syntax tree itself is produced by
an external collaborator, so theorems about the grammar-based extractor
quantify over trees.

Character-level scanners mirror the JavaScript regular expressions of the
source: a match is attempted at each position from left to right, exactly
as a global regex exec loop does.  The scanners take a fuel argument that
is always instantiated with the length of the input; since every match
and every failure step consumes at least one character, that fuel is
sufficient, and the fuel-indexed functions compute by plain kernel
reduction.
-/

namespace Mapper

/-! ## Character classes and basic string utilities -/
/-- The apostrophe character, written by code to keep the file free of
quote-literal pitfalls. -/
def squote : Char := Char.ofNat 39

/-- The double-quote character. -/
def dquote : Char := Char.ofNat 34

/-- JavaScript regex class backslash-w: letters, digits and underscore. -/
def isWordChar (c : Char) : Bool := c.isAlpha || c.isDigit || c == '_'

/-- JavaScript regex class backslash-s, restricted to the ASCII whitespace
forms that occur in source files. -/
def isSpaceJS (c : Char) : Bool :=
  c == ' ' || c == '\t' || c == '\n' || c == '\r' || c == Char.ofNat 11 || c == Char.ofNat 12

/-- JavaScript String.prototype.includes, over character lists: does the
needle occur as a contiguous substring of the haystack? -/
def containsSub (hay needle : List Char) : Bool :=
  match hay with
  | [] => needle.isEmpty
  | _ :: t => needle.isPrefixOf hay || containsSub t needle

/-- String version of `containsSub`, modelling content.includes(pat). -/
def containsStr (hay needle : String) : Bool := containsSub hay.data needle.data

/-- String.prototype.toLowerCase, character by character. -/
def strToLower (s : String) : String := String.mk (s.data.map Char.toLower)

/-- Matching a literal character list at the start of the input; on success
returns the remainder. -/
def matchLit : List Char → List Char → Option (List Char)
  | [], l => some l
  | _ :: _, [] => none
  | c :: cs, x :: xs => if c == x then matchLit cs xs else none

/-- One-or-more greedy munch of characters satisfying p: the model of a
regex piece such as backslash-w-plus.  Returns the taken characters and
the remainder. -/
def munch1 (p : Char → Bool) (l : List Char) : Option (List Char × List Char) :=
  let t := l.takeWhile p
  if t.isEmpty then none else some (t, l.drop t.length)

/-! ## The global scan loop
`scanAll matchAt fuel l` models a JavaScript global-regex exec loop over
the text `l`: at each position the pattern is tried; on a match its
captures are collected and scanning resumes after the matched text
(exec resumes at lastIndex); on failure scanning advances one character.
Every matcher below consumes at least one character, so calling with
`fuel = l.length` runs the loop to completion. -/
def scanAll {α : Type} (matchAt : List Char → Option (α × List Char)) :
    Nat → List Char → List α
  | 0, _ => []
  | fuel + 1, l =>
    match matchAt l with
    | some (a, rest) => a :: scanAll matchAt fuel rest
    | none =>
      match l with
      | [] => []
      | _ :: t => scanAll matchAt fuel t

/-! ## The individual pattern matchers (one per regex of the source) -/
/-- The left-brace character. -/
def lbrace : Char := Char.ofNat 123

/-- Either quote character, the regex class of a single quote or double
quote. -/
def isQuote (c : Char) : Bool := c == squote || c == dquote

/-- A regex piece of the form `(?:\s+LIT\s+(CAP+))` — whitespace, a
literal word, whitespace, then a greedy one-or-more capture of characters
satisfying p.  Returns the capture and the remainder after it. -/
def matchCapGroup (lit : List Char) (p : Char → Bool) (l : List Char) :
    Option (List Char × List Char) := do
  let (_, a) ← munch1 isSpaceJS l
  let b ← matchLit lit a
  let (_, c) ← munch1 isSpaceJS b
  munch1 p c

/-- The same piece used as an optional group whose capture is ignored:
on failure the input position is unchanged. -/
def skipOptGroup (lit : List Char) (p : Char → Bool) (l : List Char) : List Char :=
  match matchCapGroup lit p l with
  | some (_, r) => r
  | none => l

/-- One match attempt of the Dart class regex
`class\s+(\w+)(?:\s+extends\s+(\w+))?(?:\s+implements\s+(\w+))?(?:\s+with\s+([^{]+))?`
at the start of the input; returns the class-name and superclass captures
and the remainder after the whole match. -/
def matchClassDartAt (l : List Char) :
    Option ((String × Option String) × List Char) := do
  let r1 ← matchLit "class".data l
  let (_, r2) ← munch1 isSpaceJS r1
  let (nm, r3) ← munch1 isWordChar r2
  let (ext, r4) :=
    match matchCapGroup "extends".data isWordChar r3 with
    | some (e, r) => (some (String.mk e), r)
    | none => ((none : Option String), r3)
  let r5 := skipOptGroup "implements".data isWordChar r4
  let r6 := skipOptGroup "with".data (fun c => !(c == lbrace)) r5
  pure ((String.mk nm, ext), r6)

/-- One match attempt of the Android class regex
`class\s+(\w+)(?:\s+extends\s+(\w+))?(?:\s+implements\s+([^{]+))?`. -/
def matchClassAndroidAt (l : List Char) :
    Option ((String × Option String) × List Char) := do
  let r1 ← matchLit "class".data l
  let (_, r2) ← munch1 isSpaceJS r1
  let (nm, r3) ← munch1 isWordChar r2
  let (ext, r4) :=
    match matchCapGroup "extends".data isWordChar r3 with
    | some (e, r) => (some (String.mk e), r)
    | none => ((none : Option String), r3)
  let r5 := skipOptGroup "implements".data (fun c => !(c == lbrace)) r4
  pure ((String.mk nm, ext), r5)

/-- One match attempt of the import regex `import\s+[&quot]([^&quot]+)[&quot]`
(where either kind of quote is accepted at either end). -/
def matchImportAt (l : List Char) : Option (String × List Char) := do
  let r1 ← matchLit "import".data l
  let (_, r2) ← munch1 isSpaceJS r1
  match r2 with
  | [] => none
  | q :: r3 =>
    if isQuote q then
      match munch1 (fun c => !(isQuote c)) r3 with
      | some (cap, r4) =>
        match r4 with
        | [] => none
        | q2 :: r5 => if isQuote q2 then some (String.mk cap, r5) else none
      | none => none
    else none

/-- One match attempt of the package-dependency regex
`import\s+[&quot]package:([^\/&quot]+)`. -/
def matchDepAt (l : List Char) : Option (String × List Char) := do
  let r1 ← matchLit "import".data l
  let (_, r2) ← munch1 isSpaceJS r1
  match r2 with
  | [] => none
  | q :: r3 =>
    if isQuote q then
      match matchLit "package:".data r3 with
      | some r4 =>
        match munch1 (fun c => !(c == '/' || isQuote c)) r4 with
        | some (cap, r5) => some (String.mk cap, r5)
        | none => none
      | none => none
    else none

/-- One match attempt of the marker regex at-sign followed by letters. -/
def matchAnnAt (l : List Char) : Option (String × List Char) := do
  let r1 ← matchLit "@".data l
  match munch1 (fun c => c.isAlpha) r1 with
  | some (cap, r2) => some (String.mk cap, r2)
  | none => none

/-- The literal opener of the manifest package attribute. -/
def pkgOpener : List Char := "package=".data ++ [dquote]

/-- The literal opener of the manifest component-name attribute. -/
def nameOpener : List Char := "android:name=".data ++ [dquote]

/-- One match attempt of the manifest package regex. -/
def matchPkgAt (l : List Char) : Option (String × List Char) := do
  let r1 ← matchLit pkgOpener l
  match munch1 (fun c => !(c == dquote)) r1 with
  | some (cap, r2) =>
    match r2 with
    | [] => none
    | q :: r3 => if q == dquote then some (String.mk cap, r3) else none
  | none => none

/-- One match attempt of the manifest component-name regex. -/
def matchNameAt (l : List Char) : Option (String × List Char) := do
  let r1 ← matchLit nameOpener l
  match munch1 (fun c => !(c == dquote)) r1 with
  | some (cap, r2) =>
    match r2 with
    | [] => none
    | q :: r3 => if q == dquote then some (String.mk cap, r3) else none
  | none => none

/-! ## Data model (the per-file record schema of the source)
Optional fields of the source records are `Option` values: `none` models
a field that is absent from the serialized record (an undefined property
in the source), `some` a present field. -/
/-- SymbolInfo of the source: one declared function or class.  The field
`extendsName` embeds the source field named after the inheritance
keyword. -/
structure SymbolInfo where
  name : String
  kind : String
  properties : Option (List String) := none
  methods : Option (List String) := none
  extendsName : Option String := none
  isWidget : Option Bool := none
  isStateful : Option Bool := none
  isStateless : Option Bool := none
  androidComponent : Option String := none
  stateManagement : Option String := none
  annotations : Option (List String) := none
  dependencies : Option (List String) := none
deriving DecidableEq, Repr

/-- One entry of the imports list: the source pushes either a plain
string (a bare source reference) or an object with source and
specifiers. -/
inductive ImportEntry where
  | bare (source : String)
  | withSpecs (source : String) (specifiers : List String)
deriving DecidableEq, Repr

/-- Android manifest metadata. -/
structure ManifestInfo where
  package : Option String
  components : List String
deriving DecidableEq, Repr

/-- FileInfo of the source: the per-file extraction record. -/
structure FileInfo where
  file : String
  symbols : Option (List SymbolInfo) := none
  imports : Option (List ImportEntry) := none
  hasJsx : Option Bool := none
  jsxElements : Option (List String) := none
  isDartFile : Bool := false
  isFlutterFile : Bool := false
  isAndroidFile : Bool := false
  androidManifest : Option ManifestInfo := none
  isTestFile : Option Bool := none
  hasWidgetTests : Option Bool := none
  statePattern : Option String := none
deriving DecidableEq, Repr

/-! ## Fixed registries, reproduced from the source -/
/-- FLUTTER_WIDGETS: the widget base-class registry (a JS Set; the two
repeated entries of the source literal are harmless for membership). -/
def FLUTTER_WIDGETS : List String :=
  ["Widget", "StatelessWidget", "StatefulWidget",
   "MaterialApp", "Scaffold", "AppBar", "Container", "Row", "Column", "Text",
   "ListView", "Stack", "Card", "ListTile", "FloatingActionButton",
   "BottomNavigationBar", "Drawer", "SnackBar", "AlertDialog", "TextField",
   "ElevatedButton", "TextButton", "IconButton", "OutlinedButton",
   "Padding", "Center", "Align", "SizedBox", "Expanded", "Flexible", "Wrap",
   "GridView", "CustomScrollView", "SingleChildScrollView",
   "Navigator", "Route", "MaterialPageRoute", "CupertinoPageRoute",
   "ChangeNotifier", "ValueNotifier", "StreamBuilder", "FutureBuilder",
   "AnimationController", "Animation", "Tween", "AnimatedBuilder",
   "FutureBuilder", "StreamBuilder",
   "GestureDetector", "InkWell", "DragTarget", "Draggable",
   "Image", "Icon", "AssetImage", "NetworkImage"]

/-- DART_PATTERNS.stateManagement, in Set insertion order (the order in
which a JS Set iterates, which is what Array.from produces). -/
def DART_PATTERNS_stateManagement : List String :=
  ["ChangeNotifier", "ValueNotifier", "StreamController", "BehaviorSubject",
   "Store", "Cubit", "Bloc", "StateNotifier", "ChangeNotifierProvider",
   "Provider", "GetxController", "MobXStore", "Riverpod"]

/-- DART_PATTERNS with the recognized marker tokens (each starting with
the at-sign). -/
def DART_PATTERNS_annotationSet : List String :=
  ["@immutable", "@required", "@override", "@visibleForTesting", "@protected",
   "@mustCallSuper", "@factory", "@HiveType", "@JsonSerializable"]

/-- ANDROID_COMPONENTS. -/
def ANDROID_COMPONENTS : List String :=
  ["Activity", "Fragment", "Service", "BroadcastReceiver", "ContentProvider",
   "Application"]

/-- WEB_ELEMENTS: the standard host-markup element registry (all entries
lowercase; the source tests membership of the lowercased tag name). -/
def WEB_ELEMENTS : List String :=
  ["div", "span", "p", "a", "button", "input", "form", "img",
   "h1", "h2", "h3", "h4", "h5", "h6", "ul", "ol", "li",
   "table", "tr", "td", "th", "nav", "header", "footer", "main", "section",
   "article", "aside", "label", "select", "option", "textarea", "br", "hr",
   "canvas", "svg", "path", "circle", "rect", "video", "audio", "source",
   "iframe", "script", "style", "link", "meta", "title", "head", "body", "html"]

/-! ## The concrete syntax tree and the grammar-based extractor
The tree is produced by the external parsing grammar; the extractor walks
it.  `type` is the node category, `text` the source slice of the node,
`children` the full ordered child list (the tree-sitter child list,
anonymous token nodes included). -/
structure Node where
  type : String
  text : String
  children : List Node

/-- The traversal state of parseFile for the ECMAScript path: the local
accumulators symbols, imports, hasJsx and the jsxElements Set (modelled
as an insertion-ordered duplicate-free list). -/
structure JSState where
  symbols : List SymbolInfo
  imports : List ImportEntry
  hasJsx : Bool
  jsxElements : List String
deriving DecidableEq, Repr

/-- The empty initial traversal state. -/
def initState : JSState := ⟨[], [], false, []⟩

/-- children.find with a node-type test, as the source uses throughout. -/
def findType (children : List Node) (t : String) : Option Node :=
  children.find? (fun n => n.type == t)

/-- Adding to a JS Set: append only when not already present. -/
def setAdd (l : List String) (s : String) : List String :=
  if l.contains s then l else l ++ [s]

/-- JavaScript String.prototype.slice(1, -1): drop the first and last
characters (the quotes of a string-literal token). -/
def slice1m1 (s : String) : String := String.mk (s.data.drop 1).dropLast

/-- A function symbol as pushed by the source. -/
def funcSym (nm : String) : SymbolInfo := { name := nm, kind := "function" }

/-- A class symbol as pushed by the ECMAScript path: properties and
methods only when at least one was collected. -/
def classSym (nm : String) (ext : Option String) (props methods : List String) :
    SymbolInfo :=
  { name := nm, kind := "class", extendsName := ext,
    properties := if props.length > 0 then some props else none,
    methods := if methods.length > 0 then some methods else none }

/-- The superclass lookup of the class case: class_heritage child, then
extends_clause child, then identifier child, kept only when its text is
truthy. -/
def heritageSuper (node : Node) : Option String :=
  match findType node.children "class_heritage" with
  | some her =>
    match findType her.children "extends_clause" with
    | some ec =>
      match findType ec.children "identifier" with
      | some sn => if sn.text != "" then some sn.text else none
      | none => none
    | none => none
  | none => none

/-- One step of the class-body member loop: accumulates (properties,
methods, state), re-dispatching nested class declarations through `rec`
exactly as the source calls processNode on the member. -/
def memberStep (rec : Node → JSState → JSState)
    (acc : List String × List String × JSState) (member : Node) :
    List String × List String × JSState :=
  if member.type == "method_definition" then
    match findType member.children "property_identifier" with
    | some pn =>
      if pn.text != "" then (acc.1, acc.2.1 ++ [pn.text], acc.2.2) else acc
    | none => acc
  else if member.type == "public_field_definition"
      || member.type == "private_field_definition" then
    match findType member.children "property_identifier" with
    | some pn =>
      if pn.text != "" then (acc.1 ++ [pn.text], acc.2.1, acc.2.2) else acc
    | none => acc
  else if member.type == "class_declaration" then
    (acc.1, acc.2.1, rec member acc.2.2)
  else acc

/-- The function_declaration case of the switch. -/
def caseFunctionDecl (node : Node) (st : JSState) : JSState :=
  match findType node.children "identifier" with
  | some idn =>
    if idn.text != "" then { st with symbols := st.symbols ++ [funcSym idn.text] }
    else st
  | none => st

/-- The lexical_declaration case of the switch. -/
def caseLexicalDecl (node : Node) (st : JSState) : JSState :=
  match findType node.children "variable_declarator" with
  | some decl =>
    match findType decl.children "identifier",
        decl.children.find? (fun n => n.type == "arrow_function" || n.type == "function") with
    | some idn, some _ =>
      if idn.text != "" then { st with symbols := st.symbols ++ [funcSym idn.text] }
      else st
    | _, _ => st
  | none => st

/-- The export_statement case of the switch: unwrap and re-dispatch the
wrapped declaration. -/
def caseExportStmt (rec : Node → JSState → JSState) (node : Node) (st : JSState) :
    JSState :=
  match node.children.find? (fun n =>
      n.type == "lexical_declaration" || n.type == "function_declaration"
        || n.type == "class_declaration") with
  | some decl => rec decl st
  | none => st

/-- The class_declaration case of the switch. -/
def caseClassDecl (rec : Node → JSState → JSState) (node : Node) (st : JSState) :
    JSState :=
  match findType node.children "identifier" with
  | some idn =>
    if idn.text != "" then
      let ext := heritageSuper node
      match findType node.children "class_body" with
      | some body =>
        let acc := body.children.foldl (memberStep rec) ([], [], st)
        { acc.2.2 with
          symbols := acc.2.2.symbols ++ [classSym idn.text ext acc.1 acc.2.1] }
      | none => { st with symbols := st.symbols ++ [classSym idn.text ext [] []] }
    else st
  | none => st

/-- The named bindings the import case extracts: the identifier text of
every import_specifier child, with missing and empty texts filtered out
(the map-then-filter(Boolean) of the source). -/
def importSpecifiers (node : Node) : List String :=
  ((node.children.filter (fun n => n.type == "import_specifier")).filterMap
    (fun spec => (findType spec.children "identifier").map Node.text)).filter
    (fun s => s != "")

/-- The import_statement case of the switch. -/
def caseImportStmt (node : Node) (st : JSState) : JSState :=
  match findType node.children "string" with
  | some sn =>
    let source := slice1m1 sn.text
    if source != "" then
      let specifiers := importSpecifiers node
      if specifiers.length > 0 then
        { st with imports := st.imports ++ [ImportEntry.withSpecs source specifiers] }
      else { st with imports := st.imports ++ [ImportEntry.bare source] }
    else st
  | none => st

/-- The call_expression case of the switch (CommonJS require). -/
def caseCallExpr (node : Node) (st : JSState) : JSState :=
  match node.children.head? with
  | some c0 =>
    if c0.text == "require" then
      match node.children.get? 1 with
      | some c1 =>
        match c1.children.head? with
        | some arg =>
          if arg.type == "string" then
            { st with imports := st.imports ++ [ImportEntry.bare (slice1m1 arg.text)] }
          else st
        | none => st
      | none => st
    else st
  | none => st

/-- The jsx_element case of the switch. -/
def caseJsxElement (node : Node) (st : JSState) : JSState :=
  let stj := { st with hasJsx := true }
  match node.children.head? with
  | some c0 =>
    match c0.children.head? with
    | some c00 =>
      if c00.text != "" && !(WEB_ELEMENTS.contains (strToLower c00.text)) then
        { stj with jsxElements := setAdd stj.jsxElements c00.text }
      else stj
    | none => stj
  | none => stj

/-- The jsx_self_closing_element case of the switch. -/
def caseJsxSelfClosing (node : Node) (st : JSState) : JSState :=
  let stj := { st with hasJsx := true }
  match node.children.head? with
  | some c0 =>
    if c0.text != "" && !(WEB_ELEMENTS.contains (strToLower c0.text)) then
      { stj with jsxElements := setAdd stj.jsxElements c0.text }
    else stj
  | none => stj

/-- The switch statement of processNode, with the recursive re-dispatch
calls abstracted as `rec`. -/
def processSwitch (rec : Node → JSState → JSState) (node : Node) (st : JSState) :
    JSState :=
  if node.type == "function_declaration" then caseFunctionDecl node st
  else if node.type == "lexical_declaration" then caseLexicalDecl node st
  else if node.type == "export_statement" then caseExportStmt rec node st
  else if node.type == "class_declaration" then caseClassDecl rec node st
  else if node.type == "import_statement" then caseImportStmt node st
  else if node.type == "call_expression" then caseCallExpr node st
  else if node.type == "jsx_element" then caseJsxElement node st
  else if node.type == "jsx_self_closing_element" then caseJsxSelfClosing node st
  else if node.type == "jsx_fragment" then { st with hasJsx := true }
  else st

/-- One unfolding of processNode: the switch, then the unconditional
recursion over all children. -/
def processNodeF (rec : Node → JSState → JSState) (node : Node) (st : JSState) :
    JSState :=
  node.children.foldl (fun s c => rec c s) (processSwitch rec node st)

/-- processNode of the source, fuel-indexed.  The fuel only bounds the
recursion depth; `extractJS` instantiates it with a size bound that the
traversal can never exhaust, since every recursive call of the source
descends to a strictly smaller node. -/
def processNode : Nat → Node → JSState → JSState
  | 0, _, st => st
  | fuel + 1, node, st => processNodeF (fun n s => processNode fuel n s) node st

mutual

/-- The number of nodes of a tree, used as the fuel bound: it strictly
bounds the recursion depth of the source traversal. -/
def treeSize : Node → Nat
  | ⟨_, _, cs⟩ => 1 + treeSizeList cs
  termination_by structural n => n

/-- The number of nodes of a forest. -/
def treeSizeList : List Node → Nat
  | [] => 0
  | c :: cs => treeSize c + treeSizeList cs
  termination_by structural l => l

end

/-- The whole ECMAScript traversal: processNode applied to the root with
the empty accumulators. -/
def extractJS (root : Node) : JSState := processNode (treeSize root) root initState

/-! ## Dart, Android and manifest extractors -/
/-- Optional-chained push (x?.push): appends when the list is present. -/
def pushOpt {α : Type} (o : Option (List α)) (a : α) : Option (List α) :=
  match o with
  | some l => some (l ++ [a])
  | none => none

/-- getDartDependencies of the source: the package component of every
package-qualified import, deduplicated through a Set in match order. -/
def getDartDependencies (content : String) : List String :=
  (scanAll matchDepAt content.data.length content.data).foldl setAdd []

/-- The recognized marker tokens found anywhere in the file: every match
of the marker regex whose full token is in the registry, duplicates
preserved in match order. -/
def dartMarkersFound (content : String) : List String :=
  (scanAll matchAnnAt content.data.length content.data).filterMap
    (fun a => if DART_PATTERNS_annotationSet.contains ("@" ++ a) then some ("@" ++ a) else none)

/-- The class symbol pushed by one iteration of the Dart class loop. -/
def mkDartSymbol (content : String) (nm : String) (ext : Option String) : SymbolInfo :=
  let anns := dartMarkersFound content
  { name := nm, kind := "class", extendsName := ext,
    isWidget := some (FLUTTER_WIDGETS.contains (ext.getD "")
      || containsStr content ("class " ++ nm ++ " extends StatelessWidget")
      || containsStr content ("class " ++ nm ++ " extends StatefulWidget")),
    isStateless := some (containsStr content ("class " ++ nm ++ " extends StatelessWidget")),
    isStateful := some (containsStr content ("class " ++ nm ++ " extends StatefulWidget")),
    stateManagement := DART_PATTERNS_stateManagement.find? (fun pat =>
      containsStr content pat
        || (match ext with
            | some e => containsStr e pat
            | none => false)),
    annotations := if anns.length > 0 then some anns else none,
    dependencies := some (getDartDependencies content) }

/-- One iteration of the Dart class loop. -/
def dartClassStep (content : String) (fi : FileInfo) (c : String × Option String) :
    FileInfo :=
  { fi with symbols := pushOpt fi.symbols (mkDartSymbol content c.1 c.2) }

/-- The five substring tests the Dart import loop applies to one import
path, each adding its idiom name to the candidate Set. -/
def statePatSteps (s : List String) (ip : String) : List String :=
  let s1 := if containsStr ip "provider" then setAdd s "Provider" else s
  let s2 := if containsStr ip "bloc" then setAdd s1 "BLoC" else s1
  let s3 := if containsStr ip "get" then setAdd s2 "GetX" else s2
  let s4 := if containsStr ip "mobx" then setAdd s3 "MobX" else s3
  if containsStr ip "riverpod" then setAdd s4 "Riverpod" else s4

/-- One iteration of the Dart import loop: push the import edge (source
with an empty specifiers array) and update the state-pattern Set. -/
def dartImportStep (acc : FileInfo × List String) (ip : String) :
    FileInfo × List String :=
  ({ acc.1 with imports := pushOpt acc.1.imports (ImportEntry.withSpecs ip []) },
   statePatSteps acc.2 ip)

/-- parseDartFile of the source. -/
def parseDartFile (filePath content : String) (fileInfo : FileInfo) : FileInfo :=
  let fi1 := { fileInfo with
    isTestFile := some (containsStr filePath "_test.dart"
      || containsStr filePath ".test.dart"),
    hasWidgetTests := some (containsStr content "testWidgets("
      || containsStr content "WidgetTester") }
  let classes := scanAll matchClassDartAt content.data.length content.data
  let fi2 := classes.foldl (dartClassStep content) fi1
  let importPaths := scanAll matchImportAt content.data.length content.data
  let acc := importPaths.foldl dartImportStep (fi2, [])
  if acc.2.length > 0 then
    { acc.1 with statePattern := some (String.intercalate ", " acc.2) }
  else acc.1

/-- The class symbol pushed by one iteration of the Android class loop. -/
def mkAndroidSymbol (c : String × Option String) : SymbolInfo :=
  { name := c.1, kind := "class", extendsName := c.2,
    androidComponent :=
      if ANDROID_COMPONENTS.contains (c.2.getD "") then c.2 else none }

/-- One iteration of the Android class loop. -/
def androidClassStep (fi : FileInfo) (c : String × Option String) : FileInfo :=
  { fi with symbols := pushOpt fi.symbols (mkAndroidSymbol c) }

/-- parseAndroidFile of the source. -/
def parseAndroidFile (filePath content : String) (fileInfo : FileInfo) : FileInfo :=
  (scanAll matchClassAndroidAt content.data.length content.data).foldl
    androidClassStep fileInfo

/-- parseAndroidManifest of the source: the first package attribute match
and every component-name attribute match in order, duplicates included. -/
def parseAndroidManifest (content : String) : ManifestInfo :=
  { package := (scanAll matchPkgAt content.data.length content.data).head?,
    components := scanAll matchNameAt content.data.length content.data }

/-! ## The dispatcher (parseFile) and the aggregation loop -/
/-- The lowercased path extension, as path.extname followed by
toLowerCase computes it: the suffix of the basename from its last dot,
empty when the basename has no dot past its first character. -/
def extnameLower (path : String) : String :=
  let base := (path.data.reverse.takeWhile (fun c => !(c == '/'))).reverse
  let revTail := base.reverse.takeWhile (fun c => !(c == '.'))
  if revTail.length + 1 < base.length then
    String.mk (('.' :: revTail.reverse).map Char.toLower)
  else ""

/-- String.prototype.endsWith. -/
def strEndsWith (s suffix : String) : Bool := suffix.data.isSuffixOf s.data

/-- A discovered file: its path, raw content, and the concrete syntax
tree that the external grammar produces for it (consulted only on the
ECMAScript path). -/
structure SrcFile where
  path : String
  content : String
  tree : Node

/-- The tail of the ECMAScript branch of parseFile: copy the collected
accumulators into the record, each under its non-emptiness guard. -/
def jsEpilogue (fileInfo : FileInfo) (st : JSState) : FileInfo :=
  let fi1 :=
    if st.symbols.length > 0 then { fileInfo with symbols := some st.symbols }
    else fileInfo
  let fi2 :=
    if st.imports.length > 0 then { fi1 with imports := some st.imports } else fi1
  if st.hasJsx then
    let fi3 := { fi2 with hasJsx := some true }
    if st.jsxElements.length > 0 then { fi3 with jsxElements := some st.jsxElements }
    else fi3
  else fi2

/-- The record as parseFile initializes it before dispatching. -/
def initRecord (f : SrcFile) : FileInfo :=
  let ext := extnameLower f.path
  { file := f.path,
    symbols := some [],
    imports := some [],
    isDartFile := ext == ".dart",
    isFlutterFile := ext == ".dart" && containsStr f.content "package:flutter",
    isAndroidFile := ext == ".java" || ext == ".kt" || ext == ".xml" }

/-- parseFile of the source: initializes the record, then dispatches on
the path. -/
def parseFile (f : SrcFile) : FileInfo :=
  let ext := extnameLower f.path
  let fileInfo : FileInfo := initRecord f
  if strEndsWith f.path "AndroidManifest.xml" then
    { fileInfo with androidManifest := some (parseAndroidManifest f.content) }
  else if fileInfo.isDartFile then
    parseDartFile f.path f.content fileInfo
  else if fileInfo.isAndroidFile && !(ext == ".xml") then
    parseAndroidFile f.path f.content fileInfo
  else jsEpilogue fileInfo (extractJS f.tree)

/-- Truthiness of an optional array followed by a length test, as the
aggregation loop writes it. -/
def optNonempty {α : Type} : Option (List α) → Bool
  | some l => l.length > 0
  | none => false

/-- The content test of the aggregation loop. -/
def hasContent (fi : FileInfo) : Bool :=
  optNonempty fi.symbols || optNonempty fi.imports || optNonempty fi.jsxElements

/-- Does one import edge mention the react package? -/
def importMentionsReact (imp : ImportEntry) : Bool :=
  match imp with
  | ImportEntry.bare s => containsStr s "react"
  | ImportEntry.withSpecs s _ => containsStr s "react"

/-- The accumulated state of the aggregation loop. -/
structure MainState where
  results : List FileInfo
  hasReactFiles : Bool
  allCustomElements : List String
deriving DecidableEq, Repr

/-- One iteration of the aggregation loop over the discovered files. -/
def mainStep (st : MainState) (f : SrcFile) : MainState :=
  let fileInfo := parseFile f
  if hasContent fileInfo then
    { results := st.results ++ [fileInfo],
      allCustomElements :=
        match fileInfo.jsxElements with
        | some els => els.foldl setAdd st.allCustomElements
        | none => st.allCustomElements,
      hasReactFiles := st.hasReactFiles
        || (fileInfo.hasJsx == some true)
        || (match fileInfo.imports with
            | some l => l.any importMentionsReact
            | none => false) }
  else st

/-- The whole aggregation loop. -/
def runMain (files : List SrcFile) : MainState :=
  files.foldl mainStep ⟨[], false, []⟩

/-! ## The traversal invariant of the grammar-based extractor
One invariant bundle, preserved by every step of processNode; the claims
about import-edge shape, optional member lists and custom markup names
all project out of it. -/
/-- Shape of one import edge: a bare source, or a non-empty specifier
list. -/
def importEntryOk : ImportEntry → Prop
  | ImportEntry.bare _ => True
  | ImportEntry.withSpecs _ specs => specs ≠ []

/-- An optional collection that is never a present-but-empty list. -/
def optListOk {α : Type} : Option (List α) → Prop
  | none => True
  | some l => l ≠ []

/-- Shape of one symbol pushed by the ECMAScript path. -/
def jsSymOk (s : SymbolInfo) : Prop :=
  optListOk s.properties ∧ optListOk s.methods ∧ s.annotations = none

/-- A custom markup name: never a standard host element (tested on the
lowercased name, as the source does). -/
def jsxNameOk (n : String) : Prop := WEB_ELEMENTS.contains (strToLower n) = false

/-- The bundled traversal invariant. -/
def StInv (st : JSState) : Prop :=
  (∀ e ∈ st.imports, importEntryOk e) ∧
  (∀ s ∈ st.symbols, jsSymOk s) ∧
  (∀ n ∈ st.jsxElements, jsxNameOk n) ∧
  st.jsxElements.Nodup

/-- The attribute opener of the manifest package regex, as a string. -/
def pkgAttrOpener : String := String.mk pkgOpener

/-- The class matches of the Dart extractor over one content. -/
def dartClasses (content : String) : List (String × Option String) :=
  scanAll matchClassDartAt content.data.length content.data

/-- The import-path captures of the Dart extractor over one content. -/
def dartImportPaths (content : String) : List String :=
  scanAll matchImportAt content.data.length content.data

/-! ## Concrete inputs used by the claim theorems -/
/-- A placeholder tree for inputs whose dispatch never consults the tree. -/
def dummyNode : Node := ⟨"program", "", []⟩

mutual

/-- The number of class_declaration nodes of a tree. -/
def countClassDecls : Node → Nat
  | ⟨t, _, cs⟩ => (if t == "class_declaration" then 1 else 0) + countClassDeclsList cs
  termination_by structural n => n

/-- The number of class_declaration nodes of a forest. -/
def countClassDeclsList : List Node → Nat
  | [] => 0
  | c :: cs => countClassDecls c + countClassDeclsList cs
  termination_by structural l => l

end

/-- The concrete syntax tree of the input `export class A \x7b\x7d`: an
export_statement wrapping a named class_declaration. -/
def exportClassTree : Node :=
  ⟨"program", "export class A \x7b\x7d",
    [⟨"export_statement", "export class A \x7b\x7d",
      [⟨"export", "export", []⟩,
       ⟨"class_declaration", "class A \x7b\x7d",
         [⟨"identifier", "A", []⟩, ⟨"class_body", "\x7b\x7d", []⟩]⟩]⟩]⟩

/-- A tree in which a class_declaration appears as a direct member of a
class_body: the nested-class shape the class-member loop re-dispatches. -/
def nestedClassTree : Node :=
  ⟨"program", "class A \x7b class B \x7b\x7d \x7d",
    [⟨"class_declaration", "class A \x7b class B \x7b\x7d \x7d",
      [⟨"identifier", "A", []⟩,
       ⟨"class_body", "\x7b class B \x7b\x7d \x7d",
         [⟨"class_declaration", "class B \x7b\x7d",
           [⟨"identifier", "B", []⟩, ⟨"class_body", "\x7b\x7d", []⟩]⟩]⟩]⟩]⟩

/-- An import_statement node for `import \x7b useState \x7d from "react"`:
one import_specifier carrying an identifier child, and a string child
holding the quoted source. -/
def importStmtNode : Node :=
  ⟨"import_statement", "import \x7b useState \x7d from \"react\";",
    [⟨"import", "import", []⟩,
     ⟨"import_specifier", "useState", [⟨"identifier", "useState", []⟩]⟩,
     ⟨"string", "\"react\"", []⟩]⟩

/-- A Dart file with one side-effect import and nothing else. -/
def dartImportFile : SrcFile := ⟨"lib/b.dart", "import \"x\";", dummyNode⟩

/-- A Dart file with one plain class and no imports. -/
def dartClassFile : SrcFile := ⟨"lib/a.dart", "class A \x7b\x7d", dummyNode⟩

/-- A Dart file whose text contains the stateless pattern for class A in
code and the stateful pattern for the same name inside a comment. -/
def dartBothFile : SrcFile :=
  ⟨"lib/w.dart",
   "class A extends StatelessWidget \x7b\x7d\n// class A extends StatefulWidget",
   dummyNode⟩

/-- A Dart file declaring one stateless widget. -/
def dartHomeFile : SrcFile :=
  ⟨"lib/h.dart", "class Home extends StatelessWidget \x7b\x7d", dummyNode⟩

/-- A Dart file whose class extends a state-management base class. -/
def dartBlocFile : SrcFile := ⟨"lib/s.dart", "class A extends Bloc \x7b\x7d", dummyNode⟩

/-- A tree using the custom markup element Foo. -/
def fooTree : Node :=
  ⟨"program", "", [⟨"jsx_self_closing_element", "<Foo />", [⟨"identifier", "Foo", []⟩]⟩]⟩

/-- A tree using only the standard element div. -/
def divTree : Node :=
  ⟨"program", "", [⟨"jsx_self_closing_element", "<div />", [⟨"identifier", "div", []⟩]⟩]⟩

/-- Two files using Foo and one using only div. -/
def markupScenarioFiles : List SrcFile :=
  [⟨"a.jsx", "", fooTree⟩, ⟨"b.jsx", "", fooTree⟩, ⟨"c.jsx", "", divTree⟩]

/-- A discovered manifest file. -/
def manifestFile : SrcFile :=
  ⟨"app/AndroidManifest.xml", "<manifest package=\"com.app\"/>", dummyNode⟩

/-- Manifest content with one package attribute and two identical
component-name attributes. -/
def manifestContent : String :=
  "<manifest package=\"com.app\"><activity android:name=\".Main\"/><receiver android:name=\".Main\"/></manifest>"

/-! ## Lemmas about the character scanners -/

theorem containsSub_iff (hay needle : List Char) :
    containsSub hay needle = true ↔ needle <:+: hay := by
  induction hay with
  | nil => simp [containsSub, List.isEmpty_iff, List.infix_nil]
  | cons c t ih =>
    rw [show containsSub (c :: t) needle
        = (needle.isPrefixOf (c :: t) || containsSub t needle) from rfl]
    simp only [Bool.or_eq_true, ih, List.isPrefixOf_iff_prefix]
    exact Iff.symm List.infix_cons_iff

theorem matchLit_append (lit l r : List Char) (h : matchLit lit l = some r) :
    lit ++ r = l := by
  induction lit generalizing l with
  | nil =>
    have : l = r := by simpa [matchLit] using h
    simp [this]
  | cons c cs ih =>
    cases l with
    | nil => simp [matchLit] at h
    | cons x xs =>
      by_cases hc : c == x
      · have hcx : c = x := by simpa using hc
        simp only [matchLit, hc, if_pos] at h
        simpa [hcx] using ih xs h
      · simp [matchLit, hc] at h

theorem drop_length_takeWhile (p : Char → Bool) (l : List Char) :
    l.drop (l.takeWhile p).length = l.dropWhile p := by
  induction l with
  | nil => rfl
  | cons c t ih =>
    by_cases h : p c
    · simp [List.takeWhile_cons, List.dropWhile_cons, h, ih]
    · simp [List.takeWhile_cons, List.dropWhile_cons, h]

theorem munch1_append (p : Char → Bool) (l t r : List Char)
    (h : munch1 p l = some (t, r)) : t ++ r = l := by
  unfold munch1 at h
  by_cases he : (l.takeWhile p).isEmpty
  · simp [he] at h
  · simp only [he, if_neg, Option.some.injEq, Prod.mk.injEq, Bool.false_eq_true,
      not_false_eq_true] at h
    obtain ⟨ht, hr⟩ := h
    subst ht hr
    rw [drop_length_takeWhile]
    exact List.takeWhile_append_dropWhile p l

theorem matchLit_suffix (lit l r : List Char) (h : matchLit lit l = some r) : r <:+ l :=
  ⟨lit, matchLit_append lit l r h⟩

theorem munch1_front (p : Char → Bool) (l t r : List Char)
    (h : munch1 p l = some (t, r)) : t <+: l :=
  ⟨r, munch1_append p l t r h⟩

theorem munch1_suffix (p : Char → Bool) (l t r : List Char)
    (h : munch1 p l = some (t, r)) : r <:+ l :=
  ⟨t, munch1_append p l t r h⟩

theorem infix_of_prefix_of_suffix {a b c : List Char} (h1 : a <+: b) (h2 : b <:+ c) :
    a <:+: c := by
  obtain ⟨t, ht⟩ := h1
  obtain ⟨s, hs⟩ := h2
  exact ⟨s, t, by rw [← hs, ← ht, List.append_assoc]⟩

/-- Every capture produced by the scan loop comes from a successful match
on some suffix of the input. -/
theorem scanAll_mem {α : Type} (matchAt : List Char → Option (α × List Char))
    (hsuf : ∀ l a r, matchAt l = some (a, r) → r <:+ l) :
    ∀ fuel l a, a ∈ scanAll matchAt fuel l →
      ∃ l1 r, l1 <:+ l ∧ matchAt l1 = some (a, r) := by
  intro fuel
  induction fuel with
  | zero => intro l a h; simp [scanAll] at h
  | succ n ih =>
    intro l a h
    simp only [scanAll] at h
    cases hm : matchAt l with
    | some pr =>
      obtain ⟨a0, rest⟩ := pr
      simp only [hm] at h
      rcases List.mem_cons.mp h with h1 | h2
      · exact ⟨l, rest, List.suffix_rfl, by simpa [h1] using hm⟩
      · obtain ⟨l1, r, hl1, hml⟩ := ih rest a h2
        exact ⟨l1, r, hl1.trans (hsuf l a0 rest hm), hml⟩
    | none =>
      simp only [hm] at h
      cases l with
      | nil => simp at h
      | cons x t =>
        obtain ⟨l1, r, hl1, hml⟩ := ih t a h
        exact ⟨l1, r, hl1.trans (List.suffix_cons x t), hml⟩

theorem matchCapGroup_parts (lit : List Char) (p : Char → Bool) (l cap r : List Char)
    (h : matchCapGroup lit p l = some (cap, r)) : cap <:+: l ∧ r <:+ l := by
  unfold matchCapGroup at h
  cases h1 : munch1 isSpaceJS l with
  | none => simp [h1] at h
  | some w1 =>
    obtain ⟨s1, a⟩ := w1
    simp only [h1, Option.bind_eq_bind, Option.some_bind] at h
    cases h2 : matchLit lit a with
    | none => simp [h2] at h
    | some b =>
      simp only [h2, Option.some_bind] at h
      cases h3 : munch1 isSpaceJS b with
      | none => simp [h3] at h
      | some w2 =>
        obtain ⟨s2, c⟩ := w2
        simp only [h3, Option.some_bind] at h
        have hc : b <:+ l := (matchLit_suffix lit a b h2).trans (munch1_suffix _ l s1 a h1)
        have hcc : c <:+ l := (munch1_suffix _ b s2 c h3).trans hc
        exact ⟨infix_of_prefix_of_suffix (munch1_front p c cap r h) hcc,
          (munch1_suffix p c cap r h).trans hcc⟩

theorem skipOptGroup_suffix (lit : List Char) (p : Char → Bool) (l : List Char) :
    skipOptGroup lit p l <:+ l := by
  unfold skipOptGroup
  cases h : matchCapGroup lit p l with
  | none => exact List.suffix_rfl
  | some pr => exact (matchCapGroup_parts lit p l pr.1 pr.2 (by simpa using h)).2

/-! ## Shared lemmas -/
theorem foldl_preserve {α β : Type} {P : β → Prop} {f : β → α → β}
    (hf : ∀ b a, P b → P (f b a)) :
    ∀ (l : List α) (b : β), P b → P (l.foldl f b) := by
  intro l
  induction l with
  | nil => intro b h; simpa using h
  | cons a t ih => intro b h; rw [List.foldl_cons]; exact ih (f b a) (hf b a h)

theorem mem_setAdd (l : List String) (s x : String) :
    x ∈ setAdd l s ↔ x ∈ l ∨ x = s := by
  unfold setAdd
  by_cases h : s ∈ l
  · rw [if_pos (by simpa using h)]
    constructor
    · exact Or.inl
    · rintro (hx | rfl)
      · exact hx
      · exact h
  · rw [if_neg (by simpa using h)]
    simp [List.mem_append]

theorem setAdd_nodup (l : List String) (s : String) (h : l.Nodup) :
    (setAdd l s).Nodup := by
  unfold setAdd
  by_cases hs : s ∈ l
  · rw [if_pos (by simpa using hs)]; exact h
  · rw [if_neg (by simpa using hs)]
    simp [List.nodup_append, h, hs]

theorem StInv_init : StInv initState := by
  refine ⟨?_, ?_, ?_, ?_⟩ <;> simp [initState]

theorem funcSym_ok (nm : String) : jsSymOk (funcSym nm) := by
  refine ⟨?_, ?_, rfl⟩ <;> simp [funcSym, optListOk]

theorem classSym_ok (nm : String) (ext : Option String) (props methods : List String) :
    jsSymOk (classSym nm ext props methods) := by
  refine ⟨?_, ?_, rfl⟩
  · by_cases h : props.length > 0
    · simp only [classSym, h, if_pos]
      simpa [optListOk] using List.ne_nil_of_length_pos h
    · simp [classSym, h, optListOk]
  · by_cases h : methods.length > 0
    · simp only [classSym, h, if_pos]
      simpa [optListOk] using List.ne_nil_of_length_pos h
    · simp [classSym, h, optListOk]

theorem StInv_pushSym (st : JSState) (s : SymbolInfo) (h : StInv st) (hs : jsSymOk s) :
    StInv { st with symbols := st.symbols ++ [s] } := by
  obtain ⟨h1, h2, h3, h4⟩ := h
  refine ⟨h1, ?_, h3, h4⟩
  intro x hx
  rcases List.mem_append.mp hx with hx | hx
  · exact h2 x hx
  · simpa [List.mem_singleton.mp hx] using hs

theorem StInv_pushImp (st : JSState) (e : ImportEntry) (h : StInv st)
    (he : importEntryOk e) : StInv { st with imports := st.imports ++ [e] } := by
  obtain ⟨h1, h2, h3, h4⟩ := h
  refine ⟨?_, h2, h3, h4⟩
  intro x hx
  rcases List.mem_append.mp hx with hx | hx
  · exact h1 x hx
  · simpa [List.mem_singleton.mp hx] using he

theorem StInv_jsxAdd (st : JSState) (nm : String) (b : Bool) (h : StInv st)
    (hn : jsxNameOk nm) :
    StInv { st with hasJsx := b, jsxElements := setAdd st.jsxElements nm } := by
  obtain ⟨h1, h2, h3, h4⟩ := h
  refine ⟨h1, h2, ?_, setAdd_nodup _ _ h4⟩
  intro x hx
  rcases (mem_setAdd _ _ _).mp hx with hx | rfl
  · exact h3 x hx
  · exact hn

theorem memberStep_inv (rec : Node → JSState → JSState)
    (hrec : ∀ n s, StInv s → StInv (rec n s))
    (acc : List String × List String × JSState) (member : Node)
    (h : StInv acc.2.2) : StInv ((memberStep rec acc member).2.2) := by
  unfold memberStep
  repeat' split
  all_goals first
    | exact h
    | exact hrec _ _ h

theorem caseFunctionDecl_inv (node : Node) (st : JSState) (h : StInv st) :
    StInv (caseFunctionDecl node st) := by
  unfold caseFunctionDecl
  repeat' split
  all_goals first
    | exact h
    | exact StInv_pushSym st _ h (funcSym_ok _)

theorem caseLexicalDecl_inv (node : Node) (st : JSState) (h : StInv st) :
    StInv (caseLexicalDecl node st) := by
  unfold caseLexicalDecl
  repeat' split
  all_goals first
    | exact h
    | exact StInv_pushSym st _ h (funcSym_ok _)

theorem caseExportStmt_inv (rec : Node → JSState → JSState)
    (hrec : ∀ n s, StInv s → StInv (rec n s)) (node : Node) (st : JSState)
    (h : StInv st) : StInv (caseExportStmt rec node st) := by
  unfold caseExportStmt
  split
  · exact hrec _ _ h
  · exact h

theorem caseClassDecl_inv (rec : Node → JSState → JSState)
    (hrec : ∀ n s, StInv s → StInv (rec n s)) (node : Node) (st : JSState)
    (h : StInv st) : StInv (caseClassDecl rec node st) := by
  have hmem : ∀ (members : List Node) (acc : List String × List String × JSState),
      StInv acc.2.2 → StInv ((members.foldl (memberStep rec) acc).2.2) :=
    fun members acc hacc =>
      foldl_preserve (P := fun a => StInv a.2.2)
        (fun b a hb => memberStep_inv rec hrec b a hb) members acc hacc
  unfold caseClassDecl
  dsimp only
  repeat' split
  all_goals first
    | exact h
    | exact StInv_pushSym st _ h (classSym_ok _ _ _ _)
    | exact StInv_pushSym _ _ (hmem _ _ h) (classSym_ok _ _ _ _)

theorem caseImportStmt_inv (node : Node) (st : JSState) (h : StInv st) :
    StInv (caseImportStmt node st) := by
  unfold caseImportStmt
  dsimp only
  repeat' split
  all_goals first
    | exact h
    | exact StInv_pushImp st _ h trivial
    | (rename_i hlen
       refine StInv_pushImp st _ h ?_
       exact List.ne_nil_of_length_pos (by simpa using hlen))

theorem caseCallExpr_inv (node : Node) (st : JSState) (h : StInv st) :
    StInv (caseCallExpr node st) := by
  unfold caseCallExpr
  repeat' split
  all_goals first
    | exact h
    | exact StInv_pushImp st _ h trivial

theorem caseJsxElement_inv (node : Node) (st : JSState) (h : StInv st) :
    StInv (caseJsxElement node st) := by
  unfold caseJsxElement
  dsimp only
  repeat' split
  all_goals first
    | exact h
    | (rename_i hc
       refine StInv_jsxAdd st _ _ h ?_
       unfold jsxNameOk
       simp only [Bool.and_eq_true, Bool.not_eq_true'] at hc
       exact hc.2)

theorem caseJsxSelfClosing_inv (node : Node) (st : JSState) (h : StInv st) :
    StInv (caseJsxSelfClosing node st) := by
  unfold caseJsxSelfClosing
  dsimp only
  repeat' split
  all_goals first
    | exact h
    | (rename_i hc
       refine StInv_jsxAdd st _ _ h ?_
       unfold jsxNameOk
       simp only [Bool.and_eq_true, Bool.not_eq_true'] at hc
       exact hc.2)

theorem processSwitch_inv (rec : Node → JSState → JSState)
    (hrec : ∀ n s, StInv s → StInv (rec n s)) (node : Node) (st : JSState)
    (h : StInv st) : StInv (processSwitch rec node st) := by
  unfold processSwitch
  repeat' split
  all_goals first
    | exact h
    | exact caseFunctionDecl_inv node st h
    | exact caseLexicalDecl_inv node st h
    | exact caseExportStmt_inv rec hrec node st h
    | exact caseClassDecl_inv rec hrec node st h
    | exact caseImportStmt_inv node st h
    | exact caseCallExpr_inv node st h
    | exact caseJsxElement_inv node st h
    | exact caseJsxSelfClosing_inv node st h

theorem processNode_inv : ∀ (fuel : Nat) (node : Node) (st : JSState),
    StInv st → StInv (processNode fuel node st) := by
  intro fuel
  induction fuel with
  | zero => intro node st h; simpa [processNode] using h
  | succ n ih =>
    intro node st h
    rw [show processNode (n + 1) node st
        = processNodeF (fun nd s => processNode n nd s) node st from rfl]
    unfold processNodeF
    exact foldl_preserve (fun b a hb => ih a b hb) node.children _
      (processSwitch_inv _ (fun nd s hs => ih nd s hs) node st h)

theorem extractJS_inv (root : Node) : StInv (extractJS root) :=
  processNode_inv (treeSize root) root initState StInv_init

theorem infix_trans_suffix {a b c : List Char} (h1 : a <:+: b) (h2 : b <:+ c) :
    a <:+: c := by
  obtain ⟨s, t, hst⟩ := h1
  obtain ⟨u, hu⟩ := h2
  exact ⟨u ++ s, t, by rw [← hu, ← hst]; simp⟩

/-- The Dart class matcher consumes a suffix, and its superclass capture
is a substring of the scanned text. -/
theorem matchClassDartAt_parts (l : List Char) (nm : String) (ext : Option String)
    (r : List Char) (h : matchClassDartAt l = some ((nm, ext), r)) :
    r <:+ l ∧ ∀ e, ext = some e → e.data <:+: l := by
  unfold matchClassDartAt at h
  cases h1 : matchLit "class".data l with
  | none => simp [h1] at h
  | some r1 =>
    simp only [h1, Option.bind_eq_bind, Option.some_bind] at h
    cases h2 : munch1 isSpaceJS r1 with
    | none => simp [h2] at h
    | some w1 =>
      obtain ⟨sp1, r2⟩ := w1
      simp only [h2, Option.some_bind] at h
      cases h3 : munch1 isWordChar r2 with
      | none => simp [h3] at h
      | some w2 =>
        obtain ⟨nmc, r3⟩ := w2
        simp only [h3, Option.some_bind] at h
        have hr3 : r3 <:+ l :=
          ((munch1_suffix _ r2 nmc r3 h3).trans
            (munch1_suffix _ r1 sp1 r2 h2)).trans (matchLit_suffix _ l r1 h1)
        cases h4 : matchCapGroup "extends".data isWordChar r3 with
        | none =>
          simp only [h4, Option.pure_def, Option.some.injEq, Prod.mk.injEq] at h
          obtain ⟨⟨hnm, hext⟩, hr⟩ := h
          subst hext
          refine ⟨?_, by intro e he; cases he⟩
          rw [← hr]
          exact ((skipOptGroup_suffix _ _ _).trans (skipOptGroup_suffix _ _ _)).trans hr3
        | some pr =>
          obtain ⟨e0, r4⟩ := pr
          have hparts := matchCapGroup_parts "extends".data isWordChar r3 e0 r4 h4
          simp only [h4, Option.pure_def, Option.some.injEq, Prod.mk.injEq] at h
          obtain ⟨⟨hnm, hext⟩, hr⟩ := h
          constructor
          · rw [← hr]
            exact (((skipOptGroup_suffix _ _ _).trans
              (skipOptGroup_suffix _ _ _)).trans hparts.2).trans hr3
          · intro e he
            rw [← hext] at he
            have : e.data = e0 := by
              cases he
              rfl
            rw [this]
            exact infix_trans_suffix hparts.1 hr3

/-- The manifest package matcher consumes a suffix. -/
theorem matchPkgAt_suffix (l : List Char) (cap : String) (r : List Char)
    (h : matchPkgAt l = some (cap, r)) : r <:+ l := by
  unfold matchPkgAt at h
  cases h1 : matchLit pkgOpener l with
  | none => simp [h1] at h
  | some r1 =>
    simp only [h1, Option.bind_eq_bind, Option.some_bind] at h
    cases h2 : munch1 (fun c => !(c == dquote)) r1 with
    | none => simp [h2] at h
    | some w =>
      obtain ⟨cp, r2⟩ := w
      simp only [h2] at h
      cases r2 with
      | nil => simp at h
      | cons q r3 =>
        by_cases hq : q == dquote
        · simp only [hq, if_pos, Option.some.injEq, Prod.mk.injEq] at h
          rw [← h.2]
          exact ((List.suffix_cons q r3).trans
            (munch1_suffix _ r1 cp (q :: r3) h2)).trans (matchLit_suffix _ l r1 h1)
        · simp [hq] at h

/-- A successful manifest package match starts with the literal attribute
opener. -/
theorem matchPkgAt_starts (l : List Char) (cap : String) (r : List Char)
    (h : matchPkgAt l = some (cap, r)) : pkgOpener <+: l := by
  unfold matchPkgAt at h
  cases h1 : matchLit pkgOpener l with
  | none => simp [h1] at h
  | some r1 => exact ⟨r1, matchLit_append _ l r1 h1⟩

/-- When the text nowhere contains the package attribute opener, the
package scan finds nothing. -/
theorem scanPkg_empty (content : String)
    (h : containsStr content pkgAttrOpener = false) :
    ∀ fuel, scanAll matchPkgAt fuel content.data = [] := by
  intro fuel
  by_contra hne
  obtain ⟨a, ha⟩ := List.exists_mem_of_ne_nil _ hne
  obtain ⟨l1, r, hl1, hm⟩ := scanAll_mem matchPkgAt matchPkgAt_suffix fuel content.data a ha
  have hpre := matchPkgAt_starts l1 a r hm
  have hinf : pkgOpener <:+: content.data :=
    infix_of_prefix_of_suffix hpre hl1
  have : containsStr content pkgAttrOpener = true := by
    unfold containsStr pkgAttrOpener
    exact (containsSub_iff _ _).mpr hinf
  rw [this] at h
  cases h

/-! ## Fuel stability of the traversal
For fuel at least the node count of the tree, processNode no longer
depends on the fuel: the fuel-indexed function has reached the total
traversal that the source performs. -/
theorem treeSize_pos (n : Node) : 0 < treeSize n := by
  cases n
  rw [treeSize]
  omega

theorem treeSize_le_of_mem {c : Node} {cs : List Node} (h : c ∈ cs) :
    treeSize c ≤ treeSizeList cs := by
  induction cs with
  | nil => cases h
  | cons x xs ih =>
    rw [treeSizeList]
    rcases List.mem_cons.mp h with rfl | hx
    · omega
    · have := ih hx
      omega

theorem treeSize_child_lt {c : Node} (n : Node) (h : c ∈ n.children) :
    treeSize c < treeSize n := by
  cases n with
  | mk t s cs =>
    dsimp only at h
    rw [treeSize]
    have := treeSize_le_of_mem h
    omega

theorem findType_mem {children : List Node} {t : String} {n : Node}
    (h : findType children t = some n) : n ∈ children :=
  List.mem_of_find?_eq_some h

theorem memberStep_congr (rec1 rec2 : Node → JSState → JSState) (bound : Nat)
    (h : ∀ m st, treeSize m < bound → rec1 m st = rec2 m st)
    (acc : List String × List String × JSState) (m : Node)
    (hm : treeSize m < bound) :
    memberStep rec1 acc m = memberStep rec2 acc m := by
  unfold memberStep
  repeat' split <;> try rfl
  rw [h m acc.2.2 hm]

theorem memberFold_congr (rec1 rec2 : Node → JSState → JSState) (bound : Nat)
    (h : ∀ m st, treeSize m < bound → rec1 m st = rec2 m st) :
    ∀ (members : List Node), (∀ m ∈ members, treeSize m < bound) →
      ∀ acc, members.foldl (memberStep rec1) acc = members.foldl (memberStep rec2) acc := by
  intro members
  induction members with
  | nil => intro _ acc; rfl
  | cons m ms ih =>
    intro hm acc
    rw [List.foldl_cons, List.foldl_cons,
      memberStep_congr rec1 rec2 bound h acc m (hm m (by simp))]
    exact ih (fun x hx => hm x (by simp [hx])) _

theorem caseExportStmt_congr (rec1 rec2 : Node → JSState → JSState) (node : Node)
    (h : ∀ m st, treeSize m < treeSize node → rec1 m st = rec2 m st) (st : JSState) :
    caseExportStmt rec1 node st = caseExportStmt rec2 node st := by
  unfold caseExportStmt
  split
  · rename_i decl hfind
    exact h decl st (treeSize_child_lt node (List.mem_of_find?_eq_some hfind))
  · rfl

theorem caseClassDecl_congr (rec1 rec2 : Node → JSState → JSState) (node : Node)
    (h : ∀ m st, treeSize m < treeSize node → rec1 m st = rec2 m st) (st : JSState) :
    caseClassDecl rec1 node st = caseClassDecl rec2 node st := by
  unfold caseClassDecl
  dsimp only
  repeat' split <;> try rfl
  rename_i body hbody
  rw [memberFold_congr rec1 rec2 (treeSize node) h body.children
    (fun m hm => lt_trans (treeSize_child_lt body hm)
      (treeSize_child_lt node (findType_mem hbody))) ([], [], st)]

theorem childFold_congr (rec1 rec2 : Node → JSState → JSState) (bound : Nat)
    (h : ∀ m st, treeSize m < bound → rec1 m st = rec2 m st) :
    ∀ (cs : List Node), (∀ c ∈ cs, treeSize c < bound) →
      ∀ s, cs.foldl (fun s c => rec1 c s) s = cs.foldl (fun s c => rec2 c s) s := by
  intro cs
  induction cs with
  | nil => intro _ s; rfl
  | cons c cs ih =>
    intro hc s
    rw [List.foldl_cons, List.foldl_cons, h c s (hc c (by simp))]
    exact ih (fun x hx => hc x (by simp [hx])) _

theorem processSwitch_congr (rec1 rec2 : Node → JSState → JSState) (node : Node)
    (h : ∀ m st, treeSize m < treeSize node → rec1 m st = rec2 m st) (st : JSState) :
    processSwitch rec1 node st = processSwitch rec2 node st := by
  unfold processSwitch
  repeat' split <;> try rfl
  · exact caseExportStmt_congr rec1 rec2 node h st
  · exact caseClassDecl_congr rec1 rec2 node h st

theorem processNodeF_congr (rec1 rec2 : Node → JSState → JSState) (node : Node)
    (h : ∀ m st, treeSize m < treeSize node → rec1 m st = rec2 m st) (st : JSState) :
    processNodeF rec1 node st = processNodeF rec2 node st := by
  unfold processNodeF
  rw [processSwitch_congr rec1 rec2 node h st]
  exact childFold_congr rec1 rec2 (treeSize node) h node.children
    (fun c hc => treeSize_child_lt node hc) _

theorem processNode_stable :
    ∀ (k : Nat) (node : Node), treeSize node ≤ k →
      ∀ (f1 f2 : Nat) (st : JSState), treeSize node ≤ f1 → treeSize node ≤ f2 →
        processNode f1 node st = processNode f2 node st := by
  intro k
  induction k with
  | zero =>
    intro node hk
    have := treeSize_pos node
    omega
  | succ n ih =>
    intro node hk f1 f2 st h1 h2
    have hpos := treeSize_pos node
    cases f1 with
    | zero => omega
    | succ g1 =>
      cases f2 with
      | zero => omega
      | succ g2 =>
        show processNodeF (fun nd s => processNode g1 nd s) node st
          = processNodeF (fun nd s => processNode g2 nd s) node st
        apply processNodeF_congr
        intro m s hm
        exact ih m (by omega) g1 g2 s (by omega) (by omega)

/-- Any fuel at least the node count computes the same traversal as
`extractJS`: the fuel index is immaterial past the size bound, so the
embedding is the total recursive traversal of the source. -/
theorem extractJS_fuel_free (root : Node) (f : Nat) (h : treeSize root ≤ f) :
    processNode f root initState = extractJS root :=
  processNode_stable (treeSize root) root le_rfl f (treeSize root) initState h le_rfl

/-! ## Characterizations of the heuristic extractors -/
theorem pushOptFold_symbols {α : Type} (g : α → SymbolInfo)
    (step : FileInfo → α → FileInfo)
    (hstep : ∀ fi a, step fi a = { fi with symbols := pushOpt fi.symbols (g a) }) :
    ∀ (l : List α) (fi : FileInfo),
      l.foldl step fi
        = { fi with symbols := Option.map (fun s => s ++ l.map g) fi.symbols } := by
  intro l
  induction l with
  | nil =>
    intro fi
    have h : fi.symbols.map (fun s => s ++ ([] : List α).map g) = fi.symbols := by
      cases fi.symbols <;> simp
    rw [List.foldl_nil, h]
  | cons c cs ih =>
    intro fi
    rw [List.foldl_cons, ih, hstep]
    cases hfi : fi.symbols <;> simp [pushOpt, hfi]

theorem dartClassFold_eq (content : String)
    (classes : List (String × Option String)) (fi : FileInfo) :
    classes.foldl (dartClassStep content) fi
      = { fi with symbols := Option.map (fun s => s ++ classes.map (fun c => mkDartSymbol content c.1 c.2)) fi.symbols } :=
  pushOptFold_symbols (fun (c : String × Option String) => mkDartSymbol content c.1 c.2)
    (dartClassStep content) (fun fi c => rfl) classes fi

theorem androidFold_eq (classes : List (String × Option String)) (fi : FileInfo) :
    classes.foldl androidClassStep fi
      = { fi with symbols := Option.map (fun s => s ++ classes.map mkAndroidSymbol) fi.symbols } :=
  pushOptFold_symbols mkAndroidSymbol androidClassStep (fun fi c => rfl) classes fi

theorem dartImportFold_eq :
    ∀ (ips : List String) (acc : FileInfo × List String),
      ips.foldl dartImportStep acc
        = ({ acc.1 with imports := Option.map (fun l => l ++ ips.map (fun ip => ImportEntry.withSpecs ip [])) acc.1.imports },
           ips.foldl statePatSteps acc.2) := by
  intro ips
  induction ips with
  | nil =>
    intro acc
    have h : acc.1.imports.map
        (fun l => l ++ ([] : List String).map (fun ip => ImportEntry.withSpecs ip []))
        = acc.1.imports := by
      cases acc.1.imports <;> simp
    rw [List.foldl_nil, List.foldl_nil, h]
  | cons ip ips ih =>
    intro acc
    rw [List.foldl_cons, ih, List.foldl_cons]
    cases h1 : acc.1.imports <;> simp [dartImportStep, pushOpt, h1]

theorem parseDartFile_symbols (filePath content : String) (fi : FileInfo) :
    (parseDartFile filePath content fi).symbols
      = Option.map
          (fun s => s ++ (dartClasses content).map (fun c => mkDartSymbol content c.1 c.2))
          fi.symbols := by
  unfold parseDartFile dartClasses
  dsimp only
  rw [dartClassFold_eq, dartImportFold_eq]
  dsimp only
  split <;> rfl

theorem parseDartFile_imports (filePath content : String) (fi : FileInfo) :
    (parseDartFile filePath content fi).imports
      = Option.map
          (fun l => l ++ (dartImportPaths content).map (fun ip => ImportEntry.withSpecs ip []))
          fi.imports := by
  unfold parseDartFile dartImportPaths
  dsimp only
  rw [dartClassFold_eq, dartImportFold_eq]
  dsimp only
  split <;> rfl

theorem parseDartFile_jsxElements (filePath content : String) (fi : FileInfo) :
    (parseDartFile filePath content fi).jsxElements = fi.jsxElements := by
  unfold parseDartFile
  dsimp only
  rw [dartClassFold_eq, dartImportFold_eq]
  dsimp only
  split <;> rfl

/-! ## Dispatch lemmas for parseFile -/
theorem parseFile_manifest_eq (f : SrcFile)
    (h : strEndsWith f.path "AndroidManifest.xml" = true) :
    parseFile f
      = { initRecord f with androidManifest := some (parseAndroidManifest f.content) } := by
  unfold parseFile
  simp [h]

theorem parseFile_dart_eq (f : SrcFile) (h1 : extnameLower f.path = ".dart")
    (h2 : strEndsWith f.path "AndroidManifest.xml" = false) :
    parseFile f = parseDartFile f.path f.content (initRecord f) := by
  unfold parseFile initRecord
  simp [h1, h2]

theorem parseAndroidFile_symbols (filePath content : String) (fi : FileInfo) :
    (parseAndroidFile filePath content fi).symbols
      = Option.map (fun s => s ++ (scanAll matchClassAndroidAt content.data.length content.data).map mkAndroidSymbol) fi.symbols := by
  unfold parseAndroidFile
  rw [androidFold_eq]

theorem parseAndroidFile_imports (filePath content : String) (fi : FileInfo) :
    (parseAndroidFile filePath content fi).imports = fi.imports := by
  unfold parseAndroidFile
  rw [androidFold_eq]

theorem parseAndroidFile_jsxElements (filePath content : String) (fi : FileInfo) :
    (parseAndroidFile filePath content fi).jsxElements = fi.jsxElements := by
  unfold parseAndroidFile
  rw [androidFold_eq]

/-! ## Lemmas about the aggregation loop -/
theorem foldl_mainStep_results :
    ∀ (files : List SrcFile) (st : MainState),
      (files.foldl mainStep st).results
        = st.results ++ (files.map parseFile).filter hasContent := by
  intro files
  induction files with
  | nil => intro st; simp
  | cons f fs ih =>
    intro st
    rw [List.foldl_cons, ih]
    by_cases h : hasContent (parseFile f)
    · simp [mainStep, h]
    · simp [mainStep, h]

theorem runMain_results (files : List SrcFile) :
    (runMain files).results = (files.map parseFile).filter hasContent := by
  unfold runMain
  rw [foldl_mainStep_results]
  rfl

theorem foldl_setAdd_mem (els : List String) :
    ∀ (init : List String) (n : String),
      n ∈ els.foldl setAdd init ↔ n ∈ init ∨ n ∈ els := by
  induction els with
  | nil => intro init n; simp
  | cons e es ih =>
    intro init n
    rw [List.foldl_cons, ih, mem_setAdd]
    simp only [List.mem_cons]
    tauto

theorem foldl_mainStep_elements :
    ∀ (files : List SrcFile) (st : MainState) (n : String),
      n ∈ (files.foldl mainStep st).allCustomElements
        ↔ n ∈ st.allCustomElements
          ∨ ∃ fi ∈ (files.map parseFile).filter hasContent, n ∈ fi.jsxElements.getD [] := by
  intro files
  induction files with
  | nil => intro st n; simp
  | cons f fs ih =>
    intro st n
    rw [List.foldl_cons, ih]
    by_cases h : hasContent (parseFile f)
    · cases hjs : (parseFile f).jsxElements with
      | none =>
        simp [mainStep, h, hjs]
        try tauto
      | some els =>
        simp [mainStep, h, hjs, foldl_setAdd_mem]
        try tauto
    · simp [mainStep, h]

theorem mainStep_nodup (st : MainState) (f : SrcFile)
    (h : st.allCustomElements.Nodup) : (mainStep st f).allCustomElements.Nodup := by
  unfold mainStep
  dsimp only
  split
  · cases hjs : (parseFile f).jsxElements with
    | none => simpa [hjs] using h
    | some els =>
      simp only [hjs]
      exact foldl_preserve (fun b a hb => setAdd_nodup b a hb) els _ h
  · exact h

theorem runMain_elements_nodup (files : List SrcFile) :
    (runMain files).allCustomElements.Nodup := by
  unfold runMain
  exact foldl_preserve (P := fun st => st.allCustomElements.Nodup)
    (fun b a hb => mainStep_nodup b a hb) files ⟨[], false, []⟩ (by simp)

/-! ## Field-shape lemmas for parseFile across all dispatch branches -/
theorem initRecord_symbols (f : SrcFile) : (initRecord f).symbols = some [] := rfl

theorem initRecord_imports (f : SrcFile) : (initRecord f).imports = some [] := rfl

theorem initRecord_jsxElements (f : SrcFile) : (initRecord f).jsxElements = none := rfl

theorem jsEpilogue_symbols (fi : FileInfo) (st : JSState) :
    (jsEpilogue fi st).symbols
      = (if st.symbols.length > 0 then some st.symbols else fi.symbols) := by
  unfold jsEpilogue
  dsimp only
  by_cases h1 : st.symbols.length > 0 <;> by_cases h2 : st.imports.length > 0 <;>
    by_cases h3 : st.hasJsx = true <;> by_cases h4 : st.jsxElements.length > 0 <;>
      simp [h1, h2, h3, h4]

theorem jsEpilogue_imports (fi : FileInfo) (st : JSState) :
    (jsEpilogue fi st).imports
      = (if st.imports.length > 0 then some st.imports else fi.imports) := by
  unfold jsEpilogue
  dsimp only
  by_cases h1 : st.symbols.length > 0 <;> by_cases h2 : st.imports.length > 0 <;>
    by_cases h3 : st.hasJsx = true <;> by_cases h4 : st.jsxElements.length > 0 <;>
      simp [h1, h2, h3, h4]

theorem jsEpilogue_jsxElements (fi : FileInfo) (st : JSState) (h : fi.jsxElements = none) :
    (jsEpilogue fi st).jsxElements = none
      ∨ ((jsEpilogue fi st).jsxElements = some st.jsxElements
          ∧ st.jsxElements.length > 0) := by
  unfold jsEpilogue
  dsimp only
  by_cases h1 : st.symbols.length > 0 <;> by_cases h2 : st.imports.length > 0 <;>
    by_cases h3 : st.hasJsx = true <;> by_cases h4 : st.jsxElements.length > 0 <;>
      simp [h1, h2, h3, h4, h]

theorem parseFile_jsx_cases (f : SrcFile) :
    (parseFile f).jsxElements = none
      ∨ ((parseFile f).jsxElements = some (extractJS f.tree).jsxElements
          ∧ (extractJS f.tree).jsxElements.length > 0) := by
  unfold parseFile
  dsimp only
  split
  · left; rfl
  · split
    · left
      rw [parseDartFile_jsxElements]
      rfl
    · split
      · left
        rw [parseAndroidFile_jsxElements]
        rfl
      · exact jsEpilogue_jsxElements (initRecord f) (extractJS f.tree) rfl

theorem parseFile_jsx_ok (f : SrcFile) (n : String)
    (hn : n ∈ (parseFile f).jsxElements.getD []) : jsxNameOk n := by
  rcases parseFile_jsx_cases f with h | ⟨h, _⟩
  · rw [h] at hn
    simp at hn
  · rw [h] at hn
    exact (extractJS_inv f.tree).2.2.1 n (by simpa using hn)

theorem parseFile_symbols_isSome (f : SrcFile) : (parseFile f).symbols.isSome = true := by
  unfold parseFile
  dsimp only
  split
  · rfl
  · split
    · rw [parseDartFile_symbols, initRecord_symbols]
      rfl
    · split
      · rw [parseAndroidFile_symbols, initRecord_symbols]
        rfl
      · rw [jsEpilogue_symbols]
        split
        · rfl
        · rfl

theorem parseFile_imports_isSome (f : SrcFile) : (parseFile f).imports.isSome = true := by
  unfold parseFile
  dsimp only
  split
  · rfl
  · split
    · rw [parseDartFile_imports, initRecord_imports]
      rfl
    · split
      · rw [parseAndroidFile_imports, initRecord_imports]
        rfl
      · rw [jsEpilogue_imports]
        split
        · rfl
        · rfl

theorem mkDartSymbol_shapes (content nm : String) (ext : Option String) :
    optListOk (mkDartSymbol content nm ext).properties
      ∧ optListOk (mkDartSymbol content nm ext).methods
      ∧ optListOk (mkDartSymbol content nm ext).annotations := by
  refine ⟨trivial, trivial, ?_⟩
  unfold mkDartSymbol
  dsimp only
  split
  · rename_i hl
    simpa [optListOk] using List.ne_nil_of_length_pos hl
  · trivial

theorem mkAndroidSymbol_shapes (c : String × Option String) :
    optListOk (mkAndroidSymbol c).properties
      ∧ optListOk (mkAndroidSymbol c).methods
      ∧ optListOk (mkAndroidSymbol c).annotations :=
  ⟨trivial, trivial, trivial⟩

theorem parseFile_symbol_shapes (f : SrcFile) (s : SymbolInfo)
    (hs : s ∈ (parseFile f).symbols.getD []) :
    optListOk s.properties ∧ optListOk s.methods ∧ optListOk s.annotations := by
  revert hs
  unfold parseFile
  dsimp only
  split
  · intro hs
    simp [initRecord] at hs
  · split
    · intro hs
      rw [parseDartFile_symbols, initRecord_symbols] at hs
      obtain ⟨c, hc, hceq⟩ := List.mem_map.mp hs
      rw [← hceq]
      exact mkDartSymbol_shapes f.content c.1 c.2
    · split
      · intro hs
        rw [parseAndroidFile_symbols, initRecord_symbols] at hs
        obtain ⟨c, hc, hceq⟩ := List.mem_map.mp hs
        rw [← hceq]
        exact mkAndroidSymbol_shapes c
      · intro hs
        rw [jsEpilogue_symbols] at hs
        by_cases hl : (extractJS f.tree).symbols.length > 0
        · rw [if_pos hl] at hs
          have hsym := (extractJS_inv f.tree).2.1 s (by simpa using hs)
          exact ⟨hsym.1, hsym.2.1, by rw [hsym.2.2]; trivial⟩
        · rw [if_neg hl, initRecord_symbols] at hs
          simp at hs

theorem dart_symbol_mem (f : SrcFile) (h1 : extnameLower f.path = ".dart")
    (h2 : strEndsWith f.path "AndroidManifest.xml" = false) (s : SymbolInfo)
    (hs : s ∈ (parseFile f).symbols.getD []) :
    ∃ c ∈ dartClasses f.content, s = mkDartSymbol f.content c.1 c.2 := by
  rw [parseFile_dart_eq f h1 h2, parseDartFile_symbols, initRecord_symbols] at hs
  obtain ⟨c, hc, hceq⟩ := List.mem_map.mp hs
  exact ⟨c, hc, hceq.symm⟩

/-- The superclass capture of any Dart class match is a substring of the
file text. -/
theorem dartClasses_ext_infix_sub (content : String) (nm e : String)
    (h : (nm, some e) ∈ dartClasses content) : e.data <:+: content.data := by
  obtain ⟨l1, r, hl1, hm⟩ := scanAll_mem matchClassDartAt
    (fun l a r hh => (matchClassDartAt_parts l a.1 a.2 r hh).1)
    content.data.length content.data (nm, some e) h
  exact infix_trans_suffix
    ((matchClassDartAt_parts l1 nm (some e) r hm).2 e rfl) hl1

theorem find_congr_on {α : Type} (l : List α) (p q : α → Bool)
    (h : ∀ a ∈ l, p a = q a) : l.find? p = l.find? q := by
  induction l with
  | nil => rfl
  | cons a t ih =>
    by_cases hq : q a = true
    · rw [List.find?_cons_of_pos _ (by rw [h a (by simp)]; exact hq),
        List.find?_cons_of_pos _ hq]
    · rw [List.find?_cons_of_neg _ (by rw [h a (by simp)]; exact hq),
        List.find?_cons_of_neg _ hq]
      exact ih (fun x hx => h x (by simp [hx]))

/-! ## The claims -/
/-- C1: the claim says the grammar-based extractor emits every class
declaration exactly once with no symbol duplicated.  The code does not:
for the tree of the real input `export class A \x7b\x7d` the
export_statement case re-dispatches the class declaration and the
unconditional generic child recursion then visits the same class
declaration a second time, so the single class declaration of the input
is emitted twice.  The same double visit hits a class_declaration that
appears as a direct child of a class_body through the explicit
nested-class re-dispatch of the member loop. -/
theorem c1_class_symbols_duplicated :
    (countClassDecls exportClassTree = 1
      ∧ (extractJS exportClassTree).symbols.map SymbolInfo.name = ["A", "A"])
    ∧ (countClassDecls nestedClassTree = 2
      ∧ (extractJS nestedClassTree).symbols.map SymbolInfo.name = ["B", "A", "B"]) :=
  ⟨⟨rfl, rfl⟩, ⟨rfl, rfl⟩⟩

/-- C2 counterexample: the widget-language extractor represents a
side-effect import (zero named bindings) as an edge whose bindings list
is present and empty, not as a bare source reference, refuting the claim
as stated. -/
theorem c2_dart_import_empty_bindings :
    (parseFile dartImportFile).imports = some [ImportEntry.withSpecs "x" []] := rfl

/-- C2 (amended): for the grammar-based extractor the rule holds form by
form — an import statement whose extracted named bindings are non-empty
appends an edge carrying exactly that present, non-empty bindings list;
an import statement with zero extracted named bindings appends a bare
source reference; a require call appends a bare source reference — so
every grammar-extractor edge is a bare source reference or carries a
present, non-empty bindings list.  The widget-language extractor,
however, never extracts named bindings and represents every import as an
edge with a present, empty bindings list, never as a bare source
reference. -/
theorem c2_import_edge_forms :
    (∀ (node : Node) (st : JSState) (sn : Node),
        findType node.children "string" = some sn →
        slice1m1 sn.text ≠ "" →
        importSpecifiers node ≠ [] →
        caseImportStmt node st = { st with imports := st.imports
            ++ [ImportEntry.withSpecs (slice1m1 sn.text) (importSpecifiers node)] }) ∧
    (∀ (node : Node) (st : JSState) (sn : Node),
        findType node.children "string" = some sn →
        slice1m1 sn.text ≠ "" →
        importSpecifiers node = [] →
        caseImportStmt node st = { st with imports := st.imports
            ++ [ImportEntry.bare (slice1m1 sn.text)] }) ∧
    (∀ (node : Node) (st : JSState) (c0 c1 arg : Node),
        node.children.head? = some c0 → c0.text = "require" →
        node.children.get? 1 = some c1 → c1.children.head? = some arg →
        arg.type = "string" →
        caseCallExpr node st = { st with imports := st.imports
            ++ [ImportEntry.bare (slice1m1 arg.text)] }) ∧
    (∀ (root : Node) (e : ImportEntry), e ∈ (extractJS root).imports →
        (∃ src, e = ImportEntry.bare src)
          ∨ ∃ src specs, e = ImportEntry.withSpecs src specs ∧ specs ≠ []) ∧
    (∀ f : SrcFile, extnameLower f.path = ".dart" →
        strEndsWith f.path "AndroidManifest.xml" = false →
        ∀ e ∈ (parseFile f).imports.getD [],
          ∃ src, e = ImportEntry.withSpecs src []) := by
  refine ⟨?_, ?_, ?_, ?_, ?_⟩
  · intro node st sn hsn hsrc hspec
    unfold caseImportStmt
    rw [hsn]
    dsimp only
    rw [if_pos (by simpa using hsrc), if_pos (List.length_pos.mpr hspec)]
  · intro node st sn hsn hsrc hspec
    unfold caseImportStmt
    rw [hsn]
    dsimp only
    rw [if_pos (by simpa using hsrc), if_neg (by simp [hspec])]
  · intro node st c0 c1 arg h0 hreq h1 harg htype
    unfold caseCallExpr
    rw [h0]
    dsimp only
    rw [if_pos (by simp [hreq]), h1]
    dsimp only
    rw [harg]
    dsimp only
    rw [if_pos (by simp [htype])]
  · intro root e he
    have h := (extractJS_inv root).1 e he
    cases e with
    | bare s => exact Or.inl ⟨s, rfl⟩
    | withSpecs s specs => exact Or.inr ⟨s, specs, rfl, h⟩
  · intro f h1 h2 e he
    rw [parseFile_dart_eq f h1 h2, parseDartFile_imports, initRecord_imports] at he
    obtain ⟨ip, hip, hipe⟩ := List.mem_map.mp he
    exact ⟨ip, hipe.symm⟩

/-- C2 witness: the named-binding half applied to the concrete
import_statement node for `import \x7b useState \x7d from "react"`, and
the widget-language half applied to the concrete Dart file with one
side-effect import. -/
theorem c2_witness :
    (caseImportStmt importStmtNode initState
        = { initState with imports := [ImportEntry.withSpecs "react" ["useState"]] })
      ∧ ∃ src, ImportEntry.withSpecs "x" ([] : List String)
          = ImportEntry.withSpecs src [] := by
  constructor
  · rw [c2_import_edge_forms.1 importStmtNode initState ⟨"string", "\"react\"", []⟩
      rfl (by decide) (by decide)]
    rfl
  · exact c2_import_edge_forms.2.2.2.2 dartImportFile rfl rfl
      (ImportEntry.withSpecs "x" []) (by decide)

/-- C3 counterexample: the record of a Dart file with one class and no
imports is produced (and aggregated, since it has a symbol) with a
present empty imports list, and its class symbol carries a present empty
dependencies list — two present-but-empty optional collections, refuting
the claim as stated. -/
theorem c3_present_empty_collections :
    (parseFile dartClassFile).imports = some []
      ∧ ((parseFile dartClassFile).symbols.getD []).map SymbolInfo.dependencies
          = [some []]
      ∧ hasContent (parseFile dartClassFile) = true :=
  ⟨rfl, rfl, rfl⟩

/-- C3 (amended): the absent-when-empty rule holds for the properties,
methods and annotations of every produced symbol and for the custom
markup names of every produced record; but symbols and imports are
initialized to empty lists and stay present (possibly empty) when
nothing is found, and every widget-language class symbol carries a
package-dependency list that is present even when empty. -/
theorem c3_field_presence :
    (∀ f : SrcFile, (parseFile f).symbols.isSome = true
        ∧ (parseFile f).imports.isSome = true) ∧
    (∀ f : SrcFile, optListOk (parseFile f).jsxElements) ∧
    (∀ (f : SrcFile) (s : SymbolInfo), s ∈ (parseFile f).symbols.getD [] →
        optListOk s.properties ∧ optListOk s.methods ∧ optListOk s.annotations) ∧
    (∀ (f : SrcFile) (s : SymbolInfo), extnameLower f.path = ".dart" →
        strEndsWith f.path "AndroidManifest.xml" = false →
        s ∈ (parseFile f).symbols.getD [] → s.dependencies.isSome = true) := by
  refine ⟨fun f => ⟨parseFile_symbols_isSome f, parseFile_imports_isSome f⟩, ?_, ?_, ?_⟩
  · intro f
    rcases parseFile_jsx_cases f with h | ⟨h, hl⟩
    · rw [h]; trivial
    · rw [h]
      simpa [optListOk] using List.ne_nil_of_length_pos hl
  · exact fun f s hs => parseFile_symbol_shapes f s hs
  · intro f s h1 h2 hs
    obtain ⟨c, hc, rfl⟩ := dart_symbol_mem f h1 h2 s hs
    rfl

/-- C3 witness: the amended claim applied at the concrete Dart file. -/
theorem c3_witness :
    (mkDartSymbol "class A \x7b\x7d" "A" none).dependencies.isSome = true :=
  c3_field_presence.2.2.2 dartClassFile (mkDartSymbol "class A \x7b\x7d" "A" none)
    rfl rfl (by decide)

/-- C4 counterexample: a Dart file whose text contains both widget
patterns for the same class name yields symbols with isStateless and
isStateful simultaneously true, refuting the mutual exclusivity the
claim asserts. -/
theorem c4_both_flags_true :
    ((parseFile dartBothFile).symbols.getD []).map (fun s => (s.isStateless, s.isStateful))
      = [(some true, some true), (some true, some true)] := rfl

/-- C4 (amended): isStateless and isStateful are two independent literal
substring tests of the whole file text; when the file contains exactly
one of the two patterns for a class name the claimed classification
holds (stateless implies not stateful and conversely), and both flags
are true exactly when both patterns occur. -/
theorem c4_widget_flag_characterization :
    ∀ f : SrcFile, extnameLower f.path = ".dart" →
      strEndsWith f.path "AndroidManifest.xml" = false →
      ∀ s ∈ (parseFile f).symbols.getD [],
        s.isStateless = some (containsStr f.content
            ("class " ++ s.name ++ " extends StatelessWidget"))
        ∧ s.isStateful = some (containsStr f.content
            ("class " ++ s.name ++ " extends StatefulWidget"))
        ∧ (containsStr f.content ("class " ++ s.name ++ " extends StatelessWidget") = true →
            containsStr f.content ("class " ++ s.name ++ " extends StatefulWidget") = false →
            s.isStateless = some true ∧ s.isStateful = some false)
        ∧ (containsStr f.content ("class " ++ s.name ++ " extends StatefulWidget") = true →
            containsStr f.content ("class " ++ s.name ++ " extends StatelessWidget") = false →
            s.isStateful = some true ∧ s.isStateless = some false) := by
  intro f h1 h2 s hs
  obtain ⟨c, hc, rfl⟩ := dart_symbol_mem f h1 h2 s hs
  have hname : (mkDartSymbol f.content c.1 c.2).name = c.1 := rfl
  refine ⟨rfl, rfl, ?_, ?_⟩
  · intro ha hb
    rw [hname] at ha hb
    constructor
    · show some _ = some true
      rw [ha]
    · show some _ = some false
      rw [hb]
  · intro ha hb
    rw [hname] at ha hb
    constructor
    · show some _ = some true
      rw [ha]
    · show some _ = some false
      rw [hb]

/-- C4 witness: the amended claim applied at a file containing only the
stateless pattern. -/
theorem c4_witness :
    (mkDartSymbol "class Home extends StatelessWidget \x7b\x7d" "Home"
        (some "StatelessWidget")).isStateless = some true
      ∧ (mkDartSymbol "class Home extends StatelessWidget \x7b\x7d" "Home"
          (some "StatelessWidget")).isStateful = some false := by
  have h := c4_widget_flag_characterization dartHomeFile rfl rfl
    (mkDartSymbol "class Home extends StatelessWidget \x7b\x7d" "Home"
      (some "StatelessWidget")) (by decide)
  exact h.2.2.1 (by decide) (by decide)

/-- C5: a manifest file record keeps the initial empty symbols and
imports lists and no markup names, so the content test of the
aggregation loop rejects it: the manifest record, with its package and
component data, never appears in the final results list. -/
theorem c5_manifest_excluded :
    ∀ (files : List SrcFile) (f : SrcFile),
      strEndsWith f.path "AndroidManifest.xml" = true →
      parseFile f
          = { initRecord f with androidManifest := some (parseAndroidManifest f.content) }
        ∧ parseFile f ∉ (runMain files).results := by
  intro files f h
  refine ⟨parseFile_manifest_eq f h, ?_⟩
  intro hmem
  rw [runMain_results] at hmem
  have hc := List.of_mem_filter hmem
  rw [parseFile_manifest_eq f h] at hc
  simp [hasContent, optNonempty, initRecord] at hc

/-- C5 witness: the concrete manifest file is not in the report over a
run that discovers it. -/
theorem c5_witness :
    strEndsWith manifestFile.path "AndroidManifest.xml" = true
      ∧ parseFile manifestFile ∉ (runMain [manifestFile]).results :=
  ⟨rfl, (c5_manifest_excluded [manifestFile] manifestFile rfl).2⟩

/-- C6: the stateManagement of every widget-language class symbol is the
first registry name, in fixed registry order, occurring anywhere in the
file text — the per-class superclass disjunct is subsumed because the
superclass capture is itself a substring of the file text — absent when
no registry name occurs, and therefore identical on every class symbol
of the same file. -/
theorem c6_state_management_file_scoped :
    ∀ f : SrcFile, extnameLower f.path = ".dart" →
      strEndsWith f.path "AndroidManifest.xml" = false →
      (∀ s ∈ (parseFile f).symbols.getD [],
        s.stateManagement
          = DART_PATTERNS_stateManagement.find? (fun pat => containsStr f.content pat)) ∧
      (∀ s ∈ (parseFile f).symbols.getD [],
        (∀ pat ∈ DART_PATTERNS_stateManagement, containsStr f.content pat = false) →
        s.stateManagement = none) ∧
      (∀ s1 ∈ (parseFile f).symbols.getD [], ∀ s2 ∈ (parseFile f).symbols.getD [],
        s1.stateManagement = s2.stateManagement) := by
  intro f h1 h2
  have hmain : ∀ s ∈ (parseFile f).symbols.getD [],
      s.stateManagement
        = DART_PATTERNS_stateManagement.find? (fun pat => containsStr f.content pat) := by
    intro s hs
    obtain ⟨c, hc, rfl⟩ := dart_symbol_mem f h1 h2 s hs
    apply find_congr_on
    intro pat hpat
    cases hext : c.2 with
    | none => simp [hext]
    | some e =>
      by_cases hcp : containsStr f.content pat = true
      · simp [hext, hcp]
      · have hcontent : containsStr e pat = false := by
          cases hval : containsStr e pat with
          | false => rfl
          | true =>
            exfalso
            apply hcp
            have hep : pat.data <:+: e.data := (containsSub_iff _ _).mp hval
            have hei : e.data <:+: f.content.data := by
              apply dartClasses_ext_infix_sub f.content c.1 e
              rw [← hext]
              exact hc
            exact (containsSub_iff _ _).mpr (hep.trans hei)
        simp [hext, hcp, hcontent]
  refine ⟨hmain, ?_, fun s1 hs1 s2 hs2 => by rw [hmain s1 hs1, hmain s2 hs2]⟩
  intro s hs habs
  rw [hmain s hs]
  exact List.find?_eq_none.mpr (fun pat hp => by simp [habs pat hp])

/-- C6 witness: the characterization applied at a file whose class
extends Bloc. -/
theorem c6_witness :
    (mkDartSymbol "class A extends Bloc \x7b\x7d" "A" (some "Bloc")).stateManagement
      = some "Bloc" := by
  have h := (c6_state_management_file_scoped dartBlocFile rfl rfl).1
    (mkDartSymbol "class A extends Bloc \x7b\x7d" "A" (some "Bloc")) (by decide)
  rw [h]
  rfl

/-- C7: the final results list is exactly the per-file records passing
the content test, and that test fails precisely when the record has no
symbol, no import and no custom markup name. -/
theorem c7_aggregator_emptiness :
    (∀ files : List SrcFile,
        (runMain files).results = (files.map parseFile).filter hasContent) ∧
    (∀ fi : FileInfo, hasContent fi = false
        ↔ (fi.symbols.getD [] = [] ∧ fi.imports.getD [] = []
            ∧ fi.jsxElements.getD [] = [])) := by
  refine ⟨runMain_results, ?_⟩
  intro fi
  unfold hasContent optNonempty
  cases hs : fi.symbols <;> cases hi : fi.imports <;> cases hj : fi.jsxElements <;>
    simp [List.length_pos, List.isEmpty_iff, and_assoc]

/-- C8: in the two-Foo-files-one-div-file scenario the project registry
is exactly one occurrence of Foo; in general the registry is
duplicate-free, contains exactly the names of the included records, and
never contains a standard host element (tested case-insensitively). -/
theorem c8_custom_markup_registry :
    ((runMain markupScenarioFiles).allCustomElements = ["Foo"]) ∧
    (∀ files : List SrcFile, (runMain files).allCustomElements.Nodup) ∧
    (∀ (files : List SrcFile) (n : String),
        n ∈ (runMain files).allCustomElements
          ↔ ∃ fi ∈ (runMain files).results, n ∈ fi.jsxElements.getD []) ∧
    (∀ (files : List SrcFile) (n : String),
        n ∈ (runMain files).allCustomElements →
        WEB_ELEMENTS.contains (strToLower n) = false) := by
  refine ⟨rfl, runMain_elements_nodup, ?_, ?_⟩
  · intro files n
    constructor
    · intro hn
      rcases (foldl_mainStep_elements files ⟨[], false, []⟩ n).mp hn with h | h
      · simp at h
      · rw [runMain_results]
        exact h
    · intro h
      apply (foldl_mainStep_elements files ⟨[], false, []⟩ n).mpr
      right
      rw [runMain_results] at h
      exact h
  · intro files n hn
    rcases (foldl_mainStep_elements files ⟨[], false, []⟩ n).mp hn with h | ⟨fi, hfi, hnfi⟩
    · simp at h
    · obtain ⟨f, hf, hfe⟩ := List.mem_map.mp (List.mem_of_mem_filter hfi)
      rw [← hfe] at hnfi
      exact parseFile_jsx_ok f n hnfi

/-- C8 witness: the general part applied to Foo in the scenario run. -/
theorem c8_witness :
    "Foo" ∈ (runMain markupScenarioFiles).allCustomElements
      ∧ WEB_ELEMENTS.contains (strToLower "Foo") = false :=
  ⟨by decide, c8_custom_markup_registry.2.2.2 markupScenarioFiles "Foo" (by decide)⟩

/-- C9: on manifest content with a package attribute and two
component-name attributes with equal values, the extractor returns the
package value and both component values in source order with the
duplicate preserved; and whenever the content nowhere contains the
package attribute opener, the package field is absent. -/
theorem c9_manifest_extraction :
    (parseAndroidManifest manifestContent
        = { package := some "com.app", components := [".Main", ".Main"] }) ∧
    (∀ content : String, containsStr content pkgAttrOpener = false →
        (parseAndroidManifest content).package = none) := by
  refine ⟨rfl, ?_⟩
  intro content h
  unfold parseAndroidManifest
  dsimp only
  rw [scanPkg_empty content h]
  rfl

/-- C9 witness: the absence rule applied to content without a package
attribute. -/
theorem c9_witness :
    containsStr "<manifest/>" pkgAttrOpener = false
      ∧ (parseAndroidManifest "<manifest/>").package = none :=
  ⟨by decide, c9_manifest_extraction.2 "<manifest/>" (by decide)⟩

/-- C10: per-file extraction is a pure function of the path, the content
and the concrete syntax tree the external grammar derives from the
content: two runs on identical inputs produce identical records. -/
theorem c10_extraction_deterministic :
    ∀ f g : SrcFile, f.path = g.path → f.content = g.content → f.tree = g.tree →
      parseFile f = parseFile g := by
  intro f g h1 h2 h3
  cases f
  cases g
  cases h1
  cases h2
  cases h3
  rfl

/-- C10 witness: determinism applied at a concrete input. -/
theorem c10_witness : parseFile dartClassFile = parseFile dartClassFile :=
  c10_extraction_deterministic dartClassFile dartClassFile rfl rfl rfl

end Mapper
